import Mathlib

/-
Verification development for two cores of a transactional storage engine:

* `Roll` — shallow embedding of src/ft/roll.cc: the rollback / rollforward
  entry functions (commit and abort side of each logged operation) and the
  rollinclude walker over spilled rollback-log chains.

* `InnoDB` — shallow embedding of src/storage/innobase/read/read0read.cc:
  the MVCC read-view registry (sorted id vector, view preparation, cloning
  of the oldest view for purge).

Each embedded function mirrors one function of the source file; collaborator
interfaces whose implementations live outside the two source files (cache
table, logger, rollback-log storage) are modelled from the interface
description in the specification, and each such definition says so in its
doc comment.
-/

namespace Roll

/-- Outcome of a C function in the embedding: `ok` carries the return value
and the updated state, `fatal` is a failed release-mode assertion
(`assert` / `invariant` / `assert_zero`), which aborts the process. -/
inductive Res (α : Type) where
  | ok : α → Res α
  | fatal : Res α
deriving DecidableEq

abbrev FILENUM := Nat

abbrev LSN := Nat

abbrev TXNID := Nat

/-- TXNID_PAIR from the source: a parent and child transaction id. -/
abbrev TXNID_PAIR := TXNID × TXNID

/-- BLOCKNUM: block number of a rollback log node. Modelled from the spec:
`BlockNo (i64; sentinel NONE = -1)` (rollback.h is not under src/). -/
abbrev BLOCKNUM := Int

/-- Modelled from the spec: the NONE sentinel block number is -1
(rollback.h is not under src/). -/
def ROLLBACK_NONE : BLOCKNUM := -1

/-- Message kinds sent to the fractal tree by the entry functions
(the subset of enum ft_msg_type used in roll.cc). -/
inductive ft_msg_type where
  | FT_COMMIT_ANY
  | FT_ABORT_ANY
  | FT_COMMIT_BROADCAST_ALL
  | FT_COMMIT_BROADCAST_TXN
  | FT_ABORT_BROADCAST_TXN
deriving DecidableEq

/-- A message applied at the root of a fractal tree: key bytes, value bytes,
kind, and the stacked transaction ids of the sender. -/
structure ft_msg where
  key : List Nat
  val : List Nat
  type : ft_msg_type
  xids : List TXNID
deriving DecidableEq

/-- An open fractal tree handle. `msgs` is the trace of messages applied at
the root (the tree itself is an out-of-scope collaborator per the spec;
`toku_ft_root_put_msg` is modelled as appending to this trace).
`checkpoint_lsn` is what `toku_ft_checkpoint_lsn` returns. -/
structure FT where
  filenum : FILENUM
  checkpoint_lsn : LSN
  msgs : List ft_msg
  root_xid_that_created : TXNID
deriving DecidableEq

/-- The transaction fields consumed by roll.cc. `xids` is the stacked xid
list, outermost first. `roll_spilled_head` and `roll_spilled_tail` model
txn->roll_info.spilled_rollback head/tail; modelled from the spec (the txn
structure lives in log-internal.h, not under src/). -/
structure TOKUTXN where
  for_recovery : Bool
  do_fsync_lsn : LSN
  xids : List TXNID
  open_fts : List FT
  roll_spilled_head : BLOCKNUM
  roll_spilled_tail : BLOCKNUM
deriving DecidableEq

/-- Compile-time policy switch for sending FT_COMMIT messages for inserts
(roll.cc line 112). -/
def TOKU_DO_COMMIT_CMD_INSERT : Bool := false

/-- Compile-time policy switch for sending FT_COMMIT messages for deletes
(roll.cc line 116: defined to 1). -/
def TOKU_DO_COMMIT_CMD_DELETE : Bool := true

/-- Compile-time policy switch for sending FT_COMMIT messages for updates
(roll.cc line 120). -/
def TOKU_DO_COMMIT_CMD_UPDATE : Bool := false

/-- toku_xids_get_outermost_xid: modelled from the spec (xids.h is not under
src/): the XidStack is ordered outermost first. -/
def toku_xids_get_outermost_xid (xids : List TXNID) : TXNID :=
  xids.headD 0

/-- Apply a message at the root of the tree open under `filenum` and, when
requested, reset its root_xid_that_created to the outermost xid of the txn
stack. This is the mutation block of do_insertion (roll.cc lines 258-279). -/
def putMsg (txn : TOKUTXN) (filenum : FILENUM) (ft : FT) (msg : ft_msg)
    (reset_root_xid_that_created : Bool) : TOKUTXN :=
  let ft2 : FT :=
    { ft with
      msgs := ft.msgs ++ [msg],
      root_xid_that_created :=
        if reset_root_xid_that_created then toku_xids_get_outermost_xid txn.xids
        else ft.root_xid_that_created }
  { txn with
    open_fts := txn.open_fts.map (fun g => if g.filenum == filenum then ft2 else g) }

/-- do_insertion (roll.cc lines 234-282): look up the open tree by filenum
(absence is fatal outside recovery, tolerated during recovery); apply the
recovery guard (a nonzero oplsn at or below the tree checkpoint LSN means
the operation is already durably applied, return success with no effect);
otherwise build the message from key, optional data and the txn xid stack
and apply it at the tree root. -/
def do_insertion (type : ft_msg_type) (filenum : FILENUM) (key : List Nat)
    (data : Option (List Nat)) (txn : TOKUTXN) (oplsn : LSN)
    (reset_root_xid_that_created : Bool) : Res (Int × TOKUTXN) :=
  match txn.open_fts.find? (fun ft => ft.filenum == filenum) with
  | none => if txn.for_recovery then .ok (0, txn) else .fatal
  | some ft =>
    if oplsn ≠ 0 ∧ oplsn ≤ ft.checkpoint_lsn then
      .ok (0, txn)
    else
      .ok (0, putMsg txn filenum ft ⟨key, data.getD [], type, txn.xids⟩
                reset_root_xid_that_created)

/-- do_nothing_with_filenum (roll.cc lines 285-287). -/
def do_nothing_with_filenum (txn : TOKUTXN) (_filenum : FILENUM) : Res (Int × TOKUTXN) :=
  .ok (0, txn)

/-- toku_commit_cmdinsert (roll.cc lines 290-296). -/
def toku_commit_cmdinsert (filenum : FILENUM) (key : List Nat) (txn : TOKUTXN)
    (oplsn : LSN) : Res (Int × TOKUTXN) :=
  if TOKU_DO_COMMIT_CMD_INSERT then
    do_insertion .FT_COMMIT_ANY filenum key none txn oplsn false
  else
    do_nothing_with_filenum txn filenum

/-- toku_rollback_cmdinsert (roll.cc lines 298-305). -/
def toku_rollback_cmdinsert (filenum : FILENUM) (key : List Nat) (txn : TOKUTXN)
    (oplsn : LSN) : Res (Int × TOKUTXN) :=
  do_insertion .FT_ABORT_ANY filenum key none txn oplsn false

/-- toku_commit_cmdupdate (roll.cc lines 307-318). -/
def toku_commit_cmdupdate (filenum : FILENUM) (key : List Nat) (txn : TOKUTXN)
    (oplsn : LSN) : Res (Int × TOKUTXN) :=
  if TOKU_DO_COMMIT_CMD_UPDATE then
    do_insertion .FT_COMMIT_ANY filenum key none txn oplsn false
  else
    do_nothing_with_filenum txn filenum

/-- toku_rollback_cmdupdate (roll.cc lines 320-327). -/
def toku_rollback_cmdupdate (filenum : FILENUM) (key : List Nat) (txn : TOKUTXN)
    (oplsn : LSN) : Res (Int × TOKUTXN) :=
  do_insertion .FT_ABORT_ANY filenum key none txn oplsn false

/-- toku_commit_cmdupdatebroadcast (roll.cc lines 329-343). -/
def toku_commit_cmdupdatebroadcast (filenum : FILENUM) (is_resetting_op : Bool)
    (txn : TOKUTXN) (oplsn : LSN) : Res (Int × TOKUTXN) :=
  let msg_type : ft_msg_type :=
    if is_resetting_op then .FT_COMMIT_BROADCAST_ALL else .FT_COMMIT_BROADCAST_TXN
  do_insertion msg_type filenum [] none txn oplsn is_resetting_op

/-- toku_rollback_cmdupdatebroadcast (roll.cc lines 345-353). -/
def toku_rollback_cmdupdatebroadcast (filenum : FILENUM) (_is_resetting_op : Bool)
    (txn : TOKUTXN) (oplsn : LSN) : Res (Int × TOKUTXN) :=
  do_insertion .FT_ABORT_BROADCAST_TXN filenum [] none txn oplsn false

/-- toku_commit_cmddelete (roll.cc lines 355-367): with
TOKU_DO_COMMIT_CMD_DELETE defined to 1 this sends an FT_COMMIT_ANY message. -/
def toku_commit_cmddelete (filenum : FILENUM) (key : List Nat) (txn : TOKUTXN)
    (oplsn : LSN) : Res (Int × TOKUTXN) :=
  if TOKU_DO_COMMIT_CMD_DELETE then
    do_insertion .FT_COMMIT_ANY filenum key none txn oplsn false
  else
    do_nothing_with_filenum txn filenum

/-- toku_rollback_cmddelete (roll.cc lines 369-376). -/
def toku_rollback_cmddelete (filenum : FILENUM) (key : List Nat) (txn : TOKUTXN)
    (oplsn : LSN) : Res (Int × TOKUTXN) :=
  do_insertion .FT_ABORT_ANY filenum key none txn oplsn false

/-- Claim C1: for do_insertion and every entry function that mutates a
dictionary through it (rollback side of insert, delete, update,
update-broadcast; commit side of delete and of update-broadcast), when the
targeted tree is open and oplsn is positive and at or below the tree
checkpoint LSN, the function returns success and leaves the tree state
completely unchanged. -/
theorem do_insertion_recovery_guard (type : ft_msg_type) (filenum : FILENUM)
    (key : List Nat) (data : Option (List Nat)) (txn : TOKUTXN) (oplsn : LSN)
    (reset : Bool) (ft : FT)
    (hft : txn.open_fts.find? (fun g => g.filenum == filenum) = some ft)
    (h0 : 0 < oplsn) (hle : oplsn ≤ ft.checkpoint_lsn) :
    do_insertion type filenum key data txn oplsn reset = .ok (0, txn) ∧
    toku_rollback_cmdinsert filenum key txn oplsn = .ok (0, txn) ∧
    toku_rollback_cmddelete filenum key txn oplsn = .ok (0, txn) ∧
    toku_rollback_cmdupdate filenum key txn oplsn = .ok (0, txn) ∧
    toku_commit_cmddelete filenum key txn oplsn = .ok (0, txn) ∧
    (∀ b, toku_commit_cmdupdatebroadcast filenum b txn oplsn = .ok (0, txn)) ∧
    (∀ b, toku_rollback_cmdupdatebroadcast filenum b txn oplsn = .ok (0, txn)) := by
  have hmain : ∀ (ty : ft_msg_type) (k : List Nat) (d : Option (List Nat)) (rs : Bool),
      do_insertion ty filenum k d txn oplsn rs = .ok (0, txn) := by
    intro ty k d rs
    simp only [do_insertion, hft]
    rw [if_pos (show oplsn ≠ 0 ∧ oplsn ≤ ft.checkpoint_lsn from
      ⟨Nat.pos_iff_ne_zero.mp h0, hle⟩)]
  refine ⟨hmain type key data reset, hmain _ _ _ _, hmain _ _ _ _, hmain _ _ _ _, ?_, ?_, ?_⟩
  · simp only [toku_commit_cmddelete, TOKU_DO_COMMIT_CMD_DELETE, if_true]
    exact hmain _ _ _ _
  · intro b
    simp only [toku_commit_cmdupdatebroadcast]
    exact hmain _ _ _ _
  · intro b
    simp only [toku_rollback_cmdupdatebroadcast]
    exact hmain _ _ _ _

/-- A concrete open tree with checkpoint LSN 150 under filenum 7, used by the
recovery-guard witness. -/
def ftW : FT := ⟨7, 150, [], 0⟩

/-- A concrete recovery transaction holding ftW open. -/
def txnW : TOKUTXN := ⟨true, 0, [], [ftW], -1, -1⟩

/-- Witness for do_insertion_recovery_guard: replaying an entry with oplsn
100 against a tree whose checkpoint LSN is 150 succeeds and changes
nothing. -/
theorem do_insertion_recovery_guard_witness :
    (txnW.open_fts.find? (fun g => g.filenum == 7) = some ftW ∧
      0 < 100 ∧ 100 ≤ ftW.checkpoint_lsn) ∧
    do_insertion .FT_ABORT_ANY 7 [107] none txnW 100 false = .ok (0, txnW) :=
  ⟨⟨by decide, by decide, by decide⟩,
    (do_insertion_recovery_guard .FT_ABORT_ANY 7 [107] none txnW 100 false ftW
      (by decide) (by decide) (by decide)).1⟩

/-- A concrete non-recovery transaction holding open a tree under filenum 1
with checkpoint LSN 0 and an empty message trace. -/
def txn8 : TOKUTXN := ⟨false, 0, [], [⟨1, 0, [], 0⟩], -1, -1⟩

/-- Claim C8 counterexample: with the default compile-time switches
(TOKU_DO_COMMIT_CMD_DELETE is defined to 1 at roll.cc line 116),
toku_commit_cmddelete is not a no-op on the tree: at a concrete input it
returns success but appends an FT_COMMIT_ANY message to the tree trace. -/
theorem toku_commit_cmddelete_not_noop :
    toku_commit_cmddelete 1 [107] txn8 0 ≠ Res.ok (0, txn8) ∧
    toku_commit_cmddelete 1 [107] txn8 0 =
      Res.ok (0, ⟨false, 0, [], [⟨1, 0, [⟨[107], [], .FT_COMMIT_ANY, []⟩], 0⟩], -1, -1⟩) := by
  decide

/-- Claim C8 as amended: with the default compile-time switches
(TOKU_DO_COMMIT_CMD_DELETE on), the commit side of a logged delete emits
FT_COMMIT_ANY(key) at the tree root whenever the tree is open and the
recovery guard does not trip, while the abort side emits FT_ABORT_ANY(key). -/
theorem toku_commit_cmddelete_emits (filenum : FILENUM) (key : List Nat)
    (txn : TOKUTXN) (oplsn : LSN) (ft : FT)
    (hft : txn.open_fts.find? (fun g => g.filenum == filenum) = some ft)
    (hguard : oplsn = 0 ∨ ft.checkpoint_lsn < oplsn) :
    toku_commit_cmddelete filenum key txn oplsn =
      .ok (0, putMsg txn filenum ft ⟨key, [], .FT_COMMIT_ANY, txn.xids⟩ false) ∧
    toku_rollback_cmddelete filenum key txn oplsn =
      .ok (0, putMsg txn filenum ft ⟨key, [], .FT_ABORT_ANY, txn.xids⟩ false) := by
  have hng : ¬ (oplsn ≠ 0 ∧ oplsn ≤ ft.checkpoint_lsn) := by
    rcases hguard with h | h
    · exact fun hc => hc.1 h
    · exact fun hc => absurd hc.2 (not_le.mpr h)
  constructor
  · simp only [toku_commit_cmddelete, TOKU_DO_COMMIT_CMD_DELETE, if_true,
      do_insertion, hft]
    rw [if_neg hng]
    rfl
  · simp only [toku_rollback_cmddelete, do_insertion, hft]
    rw [if_neg hng]
    rfl

/-- Witness for toku_commit_cmddelete_emits at the concrete transaction
txn8: the commit side appends the FT_COMMIT_ANY message. -/
theorem toku_commit_cmddelete_emits_witness :
    ((0 : Nat) = 0 ∨ (FT.checkpoint_lsn ⟨1, 0, [], 0⟩ : Nat) < 0) ∧
    toku_commit_cmddelete 1 [107] txn8 0 =
      Res.ok (0, putMsg txn8 1 ⟨1, 0, [], 0⟩ ⟨[107], [], .FT_COMMIT_ANY, []⟩ false) :=
  ⟨Or.inl rfl,
    (toku_commit_cmddelete_emits 1 [107] txn8 0 ⟨1, 0, [], 0⟩ (by decide)
      (Or.inl rfl)).1⟩

/-- A cachefile: an open file known to the cachetable, with its deferred
unlink mark. -/
structure CACHEFILE where
  filenum : FILENUM
  unlink_on_close : Bool
deriving DecidableEq

/-- The state of the out-of-scope collaborators consumed by the file
lifecycle entry functions: the cachetable (list of open cachefiles) and the
write-ahead log flush horizon. -/
structure EngineSt where
  cachefiles : List CACHEFILE
  wal_flushed : LSN
deriving DecidableEq

/-- Observable events emitted by the file lifecycle entry functions, used to
state ordering properties. -/
inductive Ev where
  | fsync (lsn : LSN)
  | markUnlink (filenum : FILENUM)
deriving DecidableEq

/-- toku_cachefile_of_filenum: look up the open cachefile for a filenum;
none models the ENOENT return. Modelled from the spec (cachetable is an
out-of-scope collaborator: `open_by_fileid`). -/
def toku_cachefile_of_filenum (st : EngineSt) (filenum : FILENUM) : Option CACHEFILE :=
  st.cachefiles.find? (fun cf => cf.filenum == filenum)

/-- toku_logger_fsync_if_lsn_not_fsynced: modelled from the spec
(`fsync_up_to(lsn)`: if the WAL has not yet flushed lsn, flush; idempotent
otherwise; the logger lives outside src/). Returns the new state and the
fsync events actually performed. -/
def toku_logger_fsync_if_lsn_not_fsynced (lsn : LSN) (st : EngineSt) :
    EngineSt × List Ev :=
  if st.wal_flushed < lsn then ({ st with wal_flushed := lsn }, [Ev.fsync lsn])
  else (st, [])

/-- toku_cachefile_unlink_on_close: modelled from the spec
(`mark_unlink_on_close(cf)` sets a bit on the cachefile). -/
def toku_cachefile_unlink_on_close (filenum : FILENUM) (st : EngineSt) : EngineSt :=
  { st with
    cachefiles := st.cachefiles.map
      (fun cf => if cf.filenum == filenum then { cf with unlink_on_close := true } else cf) }

/-- toku_commit_fdelete (roll.cc lines 122-168): look up the cachefile
(ENOENT is tolerated only during recovery, roll.cc line 135 asserts
txn->for_recovery); fsync the log up to txn->do_fsync_lsn if needed; then
mark the cachefile unlink-on-close. The returned event list records the
order of the fsync and the unlink mark. (The txn logger is always non-null
here: the function already dereferenced txn->logger->ct.) -/
def toku_commit_fdelete (filenum : FILENUM) (txn : TOKUTXN) (_oplsn : LSN)
    (st : EngineSt) : Res (Int × EngineSt × List Ev) :=
  match toku_cachefile_of_filenum st filenum with
  | none => if txn.for_recovery then .ok (0, st, []) else .fatal
  | some _ =>
    let fs := toku_logger_fsync_if_lsn_not_fsynced txn.do_fsync_lsn st
    .ok (0, toku_cachefile_unlink_on_close filenum fs.1, fs.2 ++ [Ev.markUnlink filenum])

/-- toku_rollback_fcreate (roll.cc lines 188-220): look up the cachefile;
when absent (ENOENT) return success with no further check (roll.cc lines
201-204 have no recovery assertion); when present mark it unlink-on-close. -/
def toku_rollback_fcreate (filenum : FILENUM) (_bs_fname : List Nat)
    (_txn : TOKUTXN) (st : EngineSt) : Res (Int × EngineSt) :=
  match toku_cachefile_of_filenum st filenum with
  | none => .ok (0, st)
  | some _ => .ok (0, toku_cachefile_unlink_on_close filenum st)

/-- Claim C6: in toku_commit_fdelete, when the cachefile is found, the WAL
is flushed up to txn.do_fsync_lsn (when not already flushed that far)
strictly before the cachefile is marked unlink-on-close: the event trace is
some fsync events followed by the single unlink mark, and at the moment of
the mark the flush horizon is already at or past do_fsync_lsn. -/
theorem toku_commit_fdelete_fsync_before_unlink (filenum : FILENUM)
    (txn : TOKUTXN) (oplsn : LSN) (st : EngineSt) (cf : CACHEFILE)
    (hcf : toku_cachefile_of_filenum st filenum = some cf) :
    ∃ st2 evs,
      toku_commit_fdelete filenum txn oplsn st =
        .ok (0, st2, evs ++ [Ev.markUnlink filenum]) ∧
      (∀ e ∈ evs, e = Ev.fsync txn.do_fsync_lsn) ∧
      txn.do_fsync_lsn ≤ st2.wal_flushed := by
  simp only [toku_commit_fdelete, hcf, toku_logger_fsync_if_lsn_not_fsynced]
  by_cases h : st.wal_flushed < txn.do_fsync_lsn
  · rw [if_pos h]
    refine ⟨_, [Ev.fsync txn.do_fsync_lsn], rfl, ?_, ?_⟩
    · intro e he
      simpa using he
    · simp [toku_cachefile_unlink_on_close]
  · rw [if_neg h]
    refine ⟨_, [], rfl, ?_, ?_⟩
    · intro e he
      simp at he
    · simp only [toku_cachefile_unlink_on_close]
      exact le_of_not_lt h

/-- A concrete state for the fdelete witness: cachefile 9 open and unmarked,
WAL flushed to 30. -/
def st6 : EngineSt := ⟨[⟨9, false⟩], 30⟩

/-- A concrete transaction with do_fsync_lsn 42 for the fdelete witness. -/
def txn6 : TOKUTXN := ⟨false, 42, [], [], -1, -1⟩

/-- Witness for toku_commit_fdelete_fsync_before_unlink at the concrete
scenario of the spec: file 9 present, do_fsync_lsn 42, WAL flushed to 30. -/
theorem toku_commit_fdelete_fsync_before_unlink_witness :
    toku_cachefile_of_filenum st6 9 = some ⟨9, false⟩ ∧
    (∃ st2 evs,
      toku_commit_fdelete 9 txn6 0 st6 =
        .ok (0, st2, evs ++ [Ev.markUnlink 9]) ∧
      (∀ e ∈ evs, e = Ev.fsync txn6.do_fsync_lsn) ∧
      txn6.do_fsync_lsn ≤ st2.wal_flushed) :=
  ⟨by decide, toku_commit_fdelete_fsync_before_unlink 9 txn6 0 st6 ⟨9, false⟩ (by decide)⟩

/-- A concrete non-recovery transaction for the fcreate-abort divergence. -/
def txn7 : TOKUTXN := ⟨false, 42, [], [], -1, -1⟩

/-- A concrete engine state with no cachefiles. -/
def st7 : EngineSt := ⟨[], 0⟩

/-- Claim C7: at a concrete input with no cachefile for the filenum and a
transaction not in recovery, toku_rollback_fcreate converts the ENOENT to
success with no recovery check, while toku_commit_fdelete in the same
situation is a fatal assertion failure (as the claim and the comment at
roll.cc lines 198-199 demand for both). -/
theorem toku_rollback_fcreate_tolerates_absence_outside_recovery :
    toku_rollback_fcreate 5 [] txn7 st7 = .ok (0, st7) ∧
    txn7.for_recovery = false ∧
    toku_commit_fdelete 5 txn7 0 st7 = .fatal := by
  decide

/-- A rollback log entry. Its operation payload is opaque to the walker in
roll.cc (the per-entry dispatch lives in rollback-apply.cc, outside src/),
so the embedding carries only an identifying tag. -/
structure roll_entry where
  tag : Nat
deriving DecidableEq

/-- ROLLBACK_LOG_NODE: a pinned rollback log node. Modelled from the spec
(`RollbackLogNode` of the data model; rollback.h is not under src/):
block number, owner xid pair, sequence number (head of a chain has 0),
previous block (NONE at head), and the entry list newest first
(log->newest_logentry with the item->prev links). -/
structure RNODE where
  blocknum : BLOCKNUM
  txnid : TXNID_PAIR
  sequence : Nat
  previous : BLOCKNUM
  entries : List roll_entry
deriving DecidableEq

/-- The state threaded through the walker: the rollback log storage (the set
of pinnable nodes), the multiset of currently pinned block numbers, and the
transaction. Pin is lookup plus recording the pin; unpin-and-remove drops
the pin and deletes the node; both are modelled from the spec (`pin`,
`unpin_and_remove` of the rollback log storage interface, rollback.cc is
not under src/). -/
structure RollSt where
  storage : List RNODE
  pinned : List BLOCKNUM
  txn : TOKUTXN
deriving DecidableEq

/-- The apply_rollback_item function pointer type: an entry function applied
to one entry, returning the C int result and the updated transaction state.
The two instantiations toku_commit_rollback_item and
toku_abort_rollback_item live in rollback-apply.cc, outside src/, so the
walker embedding is parameterized by it exactly as the source function is. -/
abbrev apply_rollback_item := TOKUTXN → roll_entry → LSN → Int × TOKUTXN

/-- The inner entry loop of toku_apply_rollinclude (roll.cc lines 403-407):
pop entries newest first, call func on each, stop at the first nonzero
result. Returns the first nonzero result (or 0), the transaction state, and
the entries still on the node. -/
def drainEntries (func : apply_rollback_item) (txn : TOKUTXN)
    (entries : List roll_entry) (oplsn : LSN) : Int × TOKUTXN × List roll_entry :=
  match entries with
  | [] => (0, txn, [])
  | item :: prev =>
    let res := func txn item oplsn
    if res.1 ≠ 0 then (res.1, res.2, prev)
    else drainEntries func res.2 prev oplsn

/-- toku_rollback_log_unpin_and_remove on the walker state: drop the pin and
delete the node from storage. -/
def unpinRemove (st : RollSt) (b : BLOCKNUM) : RollSt :=
  { st with
    pinned := st.pinned.erase b,
    storage := st.storage.filter (fun n => n.blocknum != b) }

/-- The while loop of toku_apply_rollinclude (roll.cc lines 394-424), with a
fuel argument for termination (each completed iteration removes the pinned
node from storage, so the wrapper passes storage length + 1 and the fuel
can never run out on a run that the C loop completes). Per iteration: pin
the node at next_log (a missing node is a failed pin, fatal); verify owner
xid and the decrementing sequence (toku_rollback_verify_contents, modelled
from the spec walker step b; the expected sequence is last_sequence - 1 in
uint64 arithmetic); drain the entries newest first, returning immediately
on the first nonzero result (roll.cc line 406) with the node still pinned;
maintain found_head and the local spilled_head and spilled_tail copies; then
unpin and remove the node and advance to the previous block. -/
def rollincludeLoop (func : apply_rollback_item) (xid : TXNID_PAIR) (oplsn : LSN) :
    Nat → BLOCKNUM → Nat → Bool → BLOCKNUM → BLOCKNUM → RollSt →
    Res (Int × BLOCKNUM × BLOCKNUM × RollSt)
  | 0, _, _, _, _, _, _ => .fatal
  | fuel + 1, next_log, last_sequence, found_head, spilled_head, spilled_tail, st =>
    if next_log = ROLLBACK_NONE then .ok (0, spilled_head, spilled_tail, st)
    else
      match st.storage.find? (fun n => n.blocknum == next_log) with
      | none => .fatal
      | some log =>
        let st1 : RollSt := { st with pinned := next_log :: st.pinned }
        if log.txnid = xid ∧ log.sequence = (last_sequence + (2 ^ 64 - 1)) % 2 ^ 64 then
          let res := drainEntries func st1.txn log.entries oplsn
          let st2 : RollSt :=
            { st1 with
              txn := res.2.1,
              storage := st1.storage.map
                (fun n => if n.blocknum == next_log then { n with entries := res.2.2 } else n) }
          if res.1 ≠ 0 then .ok (res.1, spilled_head, spilled_tail, st2)
          else
            match (if next_log = spilled_head then
                     if found_head then Res.fatal
                     else if log.sequence = 0 then Res.ok true else Res.fatal
                   else Res.ok found_head : Res Bool) with
            | .fatal => .fatal
            | .ok found_head2 =>
              if found_head2 then
                if log.previous = ROLLBACK_NONE then
                  rollincludeLoop func xid oplsn fuel log.previous log.sequence
                    found_head2 log.previous log.previous (unpinRemove st2 next_log)
                else .fatal
              else
                rollincludeLoop func xid oplsn fuel log.previous log.sequence
                  found_head2 spilled_head log.previous (unpinRemove st2 next_log)
        else .fatal

/-- toku_apply_rollinclude (roll.cc lines 378-426): assert the spilled tail
is not NONE (roll.cc line 393), then walk the spilled subchain from the
tail following the previous links. Returns the C int result together with
the final values of the local spilled_head and spilled_tail variables and
the final walker state. -/
def toku_apply_rollinclude (xid : TXNID_PAIR) (num_nodes : Nat)
    (spilled_head spilled_tail : BLOCKNUM) (st : RollSt) (oplsn : LSN)
    (func : apply_rollback_item) : Res (Int × BLOCKNUM × BLOCKNUM × RollSt) :=
  if spilled_tail = ROLLBACK_NONE then .fatal
  else
    rollincludeLoop func xid oplsn (st.storage.length + 1) spilled_tail num_nodes
      false spilled_head spilled_tail st

/-- toku_commit_rollinclude (roll.cc lines 428-442): apply with the commit
item function. The commit item function toku_commit_rollback_item lives in
rollback-apply.cc, outside src/, so it stays a parameter. -/
def toku_commit_rollinclude (commit_item : apply_rollback_item)
    (xid : TXNID_PAIR) (num_nodes : Nat) (spilled_head spilled_tail : BLOCKNUM)
    (st : RollSt) (oplsn : LSN) : Res (Int × BLOCKNUM × BLOCKNUM × RollSt) :=
  toku_apply_rollinclude xid num_nodes spilled_head spilled_tail st oplsn commit_item

/-- toku_rollback_rollinclude (roll.cc lines 444-458): apply with the abort
item function. The abort item function toku_abort_rollback_item lives in
rollback-apply.cc, outside src/, so it stays a parameter. -/
def toku_rollback_rollinclude (abort_item : apply_rollback_item)
    (xid : TXNID_PAIR) (num_nodes : Nat) (spilled_head spilled_tail : BLOCKNUM)
    (st : RollSt) (oplsn : LSN) : Res (Int × BLOCKNUM × BLOCKNUM × RollSt) :=
  toku_apply_rollinclude xid num_nodes spilled_head spilled_tail st oplsn abort_item

/-- Claim C10: toku_apply_rollinclude, and hence the commit and abort side
of every RollInclude entry, asserts on entry that the spilled tail is not
the NONE block number: applying a rollinclude entry whose spilled_tail is
NONE is a fatal assertion failure, not a no-op, for any item function and
any state. -/
theorem rollinclude_requires_nonempty_spill (func : apply_rollback_item)
    (xid : TXNID_PAIR) (num_nodes : Nat) (spilled_head : BLOCKNUM)
    (st : RollSt) (oplsn : LSN) :
    toku_apply_rollinclude xid num_nodes spilled_head ROLLBACK_NONE st oplsn func = .fatal ∧
    toku_commit_rollinclude func xid num_nodes spilled_head ROLLBACK_NONE st oplsn = .fatal ∧
    toku_rollback_rollinclude func xid num_nodes spilled_head ROLLBACK_NONE st oplsn = .fatal := by
  refine ⟨?_, ?_, ?_⟩ <;>
    simp [toku_apply_rollinclude, toku_commit_rollinclude, toku_rollback_rollinclude]

/-- An item function that applies an entry with no effect and result 0,
standing in for a dispatcher whose entries all succeed. -/
def okItem : apply_rollback_item := fun txn _ _ => (0, txn)

/-- A concrete transaction whose rollback-info spilled head and tail both
point at block 7. -/
def txn3 : TOKUTXN := ⟨false, 0, [], [], 7, 7⟩

/-- A concrete one-node spilled chain: block 7, owner (1,0), sequence 0,
no previous node, one entry. -/
def node3 : RNODE := ⟨7, (1, 0), 0, ROLLBACK_NONE, [⟨0⟩]⟩

/-- The walker state holding node3 with nothing pinned, owned by txn3. -/
def st3 : RollSt := ⟨[node3], [], txn3⟩

/-- Claim C10 witness: at the concrete state st3 with spilled_tail = NONE,
all three functions are fatal. -/
theorem rollinclude_requires_nonempty_spill_witness :
    toku_apply_rollinclude (1, 0) 1 7 ROLLBACK_NONE st3 0 okItem = .fatal ∧
    toku_commit_rollinclude okItem (1, 0) 1 7 ROLLBACK_NONE st3 0 = .fatal ∧
    toku_rollback_rollinclude okItem (1, 0) 1 7 ROLLBACK_NONE st3 0 = .fatal :=
  rollinclude_requires_nonempty_spill okItem (1, 0) 1 7 st3 0

/-- Claim C3: a successful toku_commit_rollinclude run over the one-node
chain rooted at block 7 drains and removes the node and its final local
spilled_head and spilled_tail are NONE, but the transaction carried in the
state keeps roll_spilled_head = roll_spilled_tail = 7: the cleanup at
roll.cc lines 414-422 assigns only the by-value parameter copies, so the
transaction structure the comment there claims to clean is untouched. -/
theorem commit_rollinclude_leaves_txn_spill_pointers :
    toku_commit_rollinclude okItem (1, 0) 1 7 7 st3 0 =
      .ok (0, ROLLBACK_NONE, ROLLBACK_NONE, ⟨[], [], txn3⟩) ∧
    txn3.roll_spilled_head = 7 ∧
    txn3.roll_spilled_tail = 7 ∧
    (7 : BLOCKNUM) ≠ ROLLBACK_NONE := by
  decide

/-- Pin bookkeeping of the walker loop: a completed run with result 0
returns the pin multiset unchanged, while an early return caused by a
nonzero entry-function result leaves exactly the current node pinned on top
of the pins held at entry. -/
theorem rollincludeLoop_pins (func : apply_rollback_item) (xid : TXNID_PAIR)
    (oplsn : LSN) :
    ∀ (fuel : Nat) (next_log : BLOCKNUM) (last_sequence : Nat) (found_head : Bool)
      (spilled_head spilled_tail : BLOCKNUM) (st : RollSt) (r : Int)
      (sh t : BLOCKNUM) (out : RollSt),
      rollincludeLoop func xid oplsn fuel next_log last_sequence found_head
        spilled_head spilled_tail st = .ok (r, sh, t, out) →
      (r = 0 → out.pinned = st.pinned) ∧ (r ≠ 0 → ∃ b, out.pinned = b :: st.pinned) := by
  intro fuel
  induction fuel with
  | zero =>
    intro next ls fh sh0 t0 st r sh t out h
    exact Res.noConfusion h
  | succ fuel ih =>
    intro next ls fh sh0 t0 st r sh t out h
    simp only [rollincludeLoop] at h
    split at h
    · simp only [Res.ok.injEq, Prod.mk.injEq] at h
      obtain ⟨hr, -, -, hout⟩ := h
      subst hr
      subst hout
      exact ⟨fun _ => rfl, fun hne => absurd rfl hne⟩
    · split at h
      · exact Res.noConfusion h
      · rename_i log hfind
        split at h
        · split at h
          · rename_i hrne
            simp only [Res.ok.injEq, Prod.mk.injEq] at h
            obtain ⟨hr, -, -, hout⟩ := h
            subst hr
            subst hout
            refine ⟨fun hr0 => absurd hr0 hrne, fun _ => ⟨next, ?_⟩⟩
            simp
          · split at h
            · exact Res.noConfusion h
            · split at h
              · split at h
                · obtain ⟨h0, hne⟩ := ih _ _ _ _ _ _ _ _ _ _ h
                  refine ⟨fun hr0 => ?_, fun hrne => ?_⟩
                  · rw [h0 hr0]
                    simp [unpinRemove]
                  · obtain ⟨b, hb⟩ := hne hrne
                    refine ⟨b, ?_⟩
                    rw [hb]
                    simp [unpinRemove]
                · exact Res.noConfusion h
              · obtain ⟨h0, hne⟩ := ih _ _ _ _ _ _ _ _ _ _ h
                refine ⟨fun hr0 => ?_, fun hrne => ?_⟩
                · rw [h0 hr0]
                  simp [unpinRemove]
                · obtain ⟨b, hb⟩ := hne hrne
                  refine ⟨b, ?_⟩
                  rw [hb]
                  simp [unpinRemove]
        · exact Res.noConfusion h

/-- An item function whose first application reports error 1, standing in
for a dispatcher whose entry function fails. -/
def failItem : apply_rollback_item := fun txn _ _ => (1, txn)

/-- Claim C2 counterexample: when an entry function returns a nonzero
error, toku_apply_rollinclude returns that error with the current rollback
log node still pinned and still in storage (the early return at roll.cc
line 406 happens before the unpin-and-remove at line 423), so it does not
unpin every node it pins on every exit path. -/
theorem apply_rollinclude_pin_leak_on_error :
    toku_apply_rollinclude (1, 0) 1 7 7 st3 0 failItem =
      .ok (1, 7, 7, ⟨[⟨7, (1, 0), 0, ROLLBACK_NONE, []⟩], [7], txn3⟩) ∧
    ([7] : List BLOCKNUM) ≠ [] := by
  decide

/-- Claim C2 as amended: toku_apply_rollinclude unpins and removes every
node it pins on the success path (result 0 returns the entry pin multiset
unchanged) and propagates the first nonzero entry-function error, but on
that error path it returns with the failing node still pinned (exactly one
pin on top of those held at entry). -/
theorem apply_rollinclude_pin_discipline (func : apply_rollback_item)
    (xid : TXNID_PAIR) (num_nodes : Nat) (spilled_head spilled_tail : BLOCKNUM)
    (st : RollSt) (oplsn : LSN) (r : Int) (sh t : BLOCKNUM) (out : RollSt)
    (hrun : toku_apply_rollinclude xid num_nodes spilled_head spilled_tail st
      oplsn func = .ok (r, sh, t, out)) :
    (r = 0 → out.pinned = st.pinned) ∧ (r ≠ 0 → ∃ b, out.pinned = b :: st.pinned) := by
  unfold toku_apply_rollinclude at hrun
  split at hrun
  · exact Res.noConfusion hrun
  · exact rollincludeLoop_pins func xid oplsn _ _ _ _ _ _ _ _ _ _ _ hrun

/-- Witness for apply_rollinclude_pin_discipline: the successful run over
the one-node chain returns with the entry pin multiset (empty) restored. -/
theorem apply_rollinclude_pin_discipline_witness :
    toku_apply_rollinclude (1, 0) 1 7 7 st3 0 okItem =
      .ok (0, ROLLBACK_NONE, ROLLBACK_NONE, ⟨[], [], txn3⟩) ∧
    (⟨[], [], txn3⟩ : RollSt).pinned = st3.pinned :=
  ⟨by decide,
    (apply_rollinclude_pin_discipline okItem (1, 0) 1 7 7 st3 0 0 ROLLBACK_NONE
      ROLLBACK_NONE ⟨[], [], txn3⟩ (by decide)).1 rfl⟩

end Roll

namespace InnoDB

abbrev trx_id_t := Nat

/-- ReadView (read0read.cc / read0types.h): the visibility snapshot fields
consumed by read0read.cc, plus the open flag of the registry state machine. -/
structure ReadView where
  m_low_limit_id : trx_id_t
  m_up_limit_id : trx_id_t
  m_creator_trx_id : trx_id_t
  m_ids : List trx_id_t
  m_low_limit_no : Nat
  m_open : Bool
deriving DecidableEq

/-- The trx_sys fields read under its mutex by ReadView::prepare: the
max transaction id counter, the ascending vector of read-write transaction
ids, and the serialisation list (the `no` of each in-flight writer, head
first). -/
structure TrxSys where
  max_trx_id : trx_id_t
  rw_trx_ids : List trx_id_t
  serialisation_list : List Nat
deriving DecidableEq

/-- ReadView::ids_t::insert (read0read.cc lines 290-320): fast-path append
when the vector is empty or the value is past the back, otherwise insert at
the std::upper_bound slot, shifting the tail up. Capacity management is
memory layout and is not modelled. -/
def idsInsert (l : List trx_id_t) (value : trx_id_t) : List trx_id_t :=
  if l.isEmpty || l.getLastD 0 < value then
    l ++ [value]
  else
    let rest := l.dropWhile (fun x => decide (x ≤ value))
    if rest.isEmpty then l ++ [value]
    else l.takeWhile (fun x => decide (x ≤ value)) ++ value :: rest

/-- ReadView::copy_trx_ids (read0read.cc lines 325-404): copy the
read-write transaction ids, dropping the creator id when positive by
copying the two runs around its std::lower_bound slot; set m_up_limit_id to
the front of the copy when the copy is non-empty. -/
def ReadView.copy_trx_ids (v : ReadView) (trx_ids : List trx_id_t) : ReadView :=
  let size := trx_ids.length
  let size2 := if 0 < v.m_creator_trx_id then size - 1 else size
  if size2 = 0 then { v with m_ids := [] }
  else
    let ids :=
      if 0 < v.m_creator_trx_id then
        trx_ids.takeWhile (fun x => decide (x < v.m_creator_trx_id)) ++
          (trx_ids.dropWhile (fun x => decide (x < v.m_creator_trx_id))).tail
      else trx_ids
    { v with m_ids := ids, m_up_limit_id := ids.headD 0 }

/-- ReadView::prepare (read0read.cc lines 411-438): record the creator id;
initialize m_low_limit_no, m_low_limit_id and m_up_limit_id to the max
transaction id; copy the read-write ids (or clear); then lower
m_low_limit_no to the `no` of the serialisation list head when smaller. -/
def ReadView.prepare (sys : TrxSys) (v : ReadView) (id : trx_id_t) : ReadView :=
  let v1 : ReadView :=
    { v with
      m_creator_trx_id := id,
      m_low_limit_no := sys.max_trx_id,
      m_low_limit_id := sys.max_trx_id,
      m_up_limit_id := sys.max_trx_id }
  let v2 := if ¬ sys.rw_trx_ids.isEmpty then v1.copy_trx_ids sys.rw_trx_ids
            else { v1 with m_ids := [] }
  match sys.serialisation_list with
  | [] => v2
  | no :: _ => if no < v2.m_low_limit_no then { v2 with m_low_limit_no := no } else v2

/-- ReadView::copy_prepare (read0read.cc lines 526-546): field-wise copy of
the other view into this one (list assignment is a deep copy; the registry
flags are not copied). -/
def ReadView.copy_prepare (v other : ReadView) : ReadView :=
  { v with
    m_ids := other.m_ids,
    m_up_limit_id := other.m_up_limit_id,
    m_low_limit_no := other.m_low_limit_no,
    m_low_limit_id := other.m_low_limit_id,
    m_creator_trx_id := other.m_creator_trx_id }

/-- ReadView::copy_complete (read0read.cc lines 552-570): insert the copied
creator id into m_ids when positive, lower m_up_limit_id to the front of
m_ids when non-empty, then zero the creator id. -/
def ReadView.copy_complete (v : ReadView) : ReadView :=
  let v1 := if 0 < v.m_creator_trx_id then
              { v with m_ids := idsInsert v.m_ids v.m_creator_trx_id }
            else v
  let v2 := if ¬ v1.m_ids.isEmpty then
              { v1 with m_up_limit_id := min (v1.m_ids.headD 0) v1.m_up_limit_id }
            else v1
  { v2 with m_creator_trx_id := 0 }

/-- MVCC::clone_oldest_view (read0read.cc lines 578-598): scan m_views from
tail toward head for the first open view; when found, copy_prepare it into
the destination under the mutex and copy_complete outside the mutex; when
no open view exists, prepare the destination with creator id 0 under the
mutex. m_views is head first, so the tail-to-head scan is a find over the
reversed list. -/
def MVCC.clone_oldest_view (sys : TrxSys) (m_views : List ReadView)
    (view : ReadView) : ReadView :=
  match m_views.reverse.find? (fun w => w.m_open) with
  | some oldest_view => (view.copy_prepare oldest_view).copy_complete
  | none => view.prepare sys 0

end InnoDB

namespace InnoDB

/-- Reference form of upper-bound insertion: keep elements at or below the
value, place the value before the first strictly larger element. -/
def ubInsert (value : trx_id_t) : List trx_id_t → List trx_id_t
  | [] => [value]
  | b :: l => if b ≤ value then b :: ubInsert value l else value :: b :: l

/-- ubInsert is the takeWhile/dropWhile split around the upper bound. -/
theorem ubInsert_eq_take_drop (value : trx_id_t) (l : List trx_id_t) :
    ubInsert value l =
      l.takeWhile (fun x => decide (x ≤ value)) ++
        value :: l.dropWhile (fun x => decide (x ≤ value)) := by
  induction l with
  | nil => rfl
  | cons b t ih =>
    by_cases h : b ≤ value
    · simp [ubInsert, h, List.takeWhile_cons, List.dropWhile_cons, ih]
    · simp [ubInsert, h, List.takeWhile_cons, List.dropWhile_cons]

/-- Membership in an ubInsert result. -/
theorem ubInsert_mem (value y : trx_id_t) (l : List trx_id_t) :
    y ∈ ubInsert value l ↔ y = value ∨ y ∈ l := by
  induction l with
  | nil => simp [ubInsert]
  | cons b t ih =>
    by_cases h : b ≤ value
    · rw [ubInsert, if_pos h]
      simp only [List.mem_cons, ih]
      tauto
    · rw [ubInsert, if_neg h]
      simp only [List.mem_cons]

/-- An ubInsert result is never empty. -/
theorem ubInsert_ne_nil (value : trx_id_t) (l : List trx_id_t) :
    ubInsert value l ≠ [] := by
  cases l with
  | nil => simp [ubInsert]
  | cons b t => by_cases h : b ≤ value <;> simp [ubInsert, h]

/-- ubInsert preserves weak ascending order. -/
theorem ubInsert_sorted_le (value : trx_id_t) (l : List trx_id_t)
    (hl : l.Sorted (· ≤ ·)) : (ubInsert value l).Sorted (· ≤ ·) := by
  induction l with
  | nil => simp [ubInsert]
  | cons b t ih =>
    rw [List.sorted_cons] at hl
    by_cases h : b ≤ value
    · rw [ubInsert, if_pos h, List.sorted_cons]
      refine ⟨?_, ih hl.2⟩
      intro y hy
      rcases (ubInsert_mem value y t).mp hy with rfl | hyt
      · exact h
      · exact hl.1 y hyt
    · rw [ubInsert, if_neg h, List.sorted_cons]
      have hvb : value ≤ b := le_of_lt (not_le.mp h)
      refine ⟨?_, List.sorted_cons.mpr hl⟩
      intro y hy
      rcases List.mem_cons.mp hy with rfl | hyt
      · exact hvb
      · exact le_trans hvb (hl.1 y hyt)

/-- ubInsert of an absent value preserves strict ascending order. -/
theorem ubInsert_sorted_lt (value : trx_id_t) (l : List trx_id_t)
    (hl : l.Sorted (· < ·)) (hnot : value ∉ l) : (ubInsert value l).Sorted (· < ·) := by
  induction l with
  | nil => simp [ubInsert]
  | cons b t ih =>
    rw [List.sorted_cons] at hl
    have hnb : value ≠ b := fun hvb => hnot (hvb ▸ List.mem_cons_self b t)
    have hnt : value ∉ t := fun hvt => hnot (List.mem_cons_of_mem b hvt)
    by_cases h : b ≤ value
    · rw [ubInsert, if_pos h, List.sorted_cons]
      refine ⟨?_, ih hl.2 hnt⟩
      intro y hy
      rcases (ubInsert_mem value y t).mp hy with rfl | hyt
      · exact lt_of_le_of_ne h (Ne.symm hnb)
      · exact hl.1 y hyt
    · rw [ubInsert, if_neg h, List.sorted_cons]
      have hvb : value < b := not_le.mp h
      refine ⟨?_, List.sorted_cons.mpr hl⟩
      intro y hy
      rcases List.mem_cons.mp hy with rfl | hyt
      · exact hvb
      · exact lt_trans hvb (hl.1 y hyt)

/-- Every element of a weakly sorted list is at most its last element. -/
theorem mem_le_getLastD (l : List trx_id_t) (hl : l.Sorted (· ≤ ·)) :
    ∀ (d : trx_id_t), ∀ x ∈ l, x ≤ l.getLastD d := by
  induction l with
  | nil => intro d x hx; cases hx
  | cons b t ih =>
    intro d x hx
    rw [List.getLastD_cons]
    rw [List.sorted_cons] at hl
    rcases List.mem_cons.mp hx with rfl | hxt
    · cases t with
      | nil => simp
      | cons c u =>
        have hc : c ≤ (c :: u).getLastD x := ih hl.2 x c (List.mem_cons_self c u)
        exact le_trans (hl.1 c (List.mem_cons_self c u)) hc
    · exact ih hl.2 b x hxt

/-- On a weakly sorted vector, the source insert routine coincides with the
reference upper-bound insertion. -/
theorem idsInsert_eq_ubInsert (l : List trx_id_t) (value : trx_id_t)
    (hl : l.Sorted (· ≤ ·)) : idsInsert l value = ubInsert value l := by
  simp only [idsInsert, ubInsert_eq_take_drop]
  by_cases hcond : (l.isEmpty || decide (l.getLastD 0 < value)) = true
  · rw [if_pos hcond]
    have hall : ∀ x ∈ l, (fun x => decide (x ≤ value)) x = true := by
      intro x hx
      rcases Bool.or_eq_true_iff.mp hcond with he | hlast
      · rw [List.isEmpty_iff] at he
        subst he
        cases hx
      · rw [decide_eq_true_eq] at hlast ⊢
        exact le_of_lt (lt_of_le_of_lt (mem_le_getLastD l hl 0 x hx) hlast)
    have hdrop : l.dropWhile (fun x => decide (x ≤ value)) = [] :=
      List.dropWhile_eq_nil_iff.mpr hall
    have htake : l.takeWhile (fun x => decide (x ≤ value)) = l := by
      have hsplit := List.takeWhile_append_dropWhile
        (p := fun x => decide (x ≤ value)) (l := l)
      rw [hdrop, List.append_nil] at hsplit
      exact hsplit
    rw [htake, hdrop]
  · rw [if_neg hcond]
    by_cases hrest : (l.dropWhile (fun x => decide (x ≤ value))).isEmpty = true
    · rw [if_pos hrest]
      rw [List.isEmpty_iff] at hrest
      have htake : l.takeWhile (fun x => decide (x ≤ value)) = l := by
        have hsplit := List.takeWhile_append_dropWhile
          (p := fun x => decide (x ≤ value)) (l := l)
        rw [hrest, List.append_nil] at hsplit
        exact hsplit
      rw [htake, hrest]
    · rw [if_neg hrest]

/-- Any sequence of source inserts on a weakly sorted vector stays weakly
sorted. -/
theorem foldl_idsInsert_sorted (vs : List trx_id_t) :
    ∀ (l : List trx_id_t), l.Sorted (· ≤ ·) → (vs.foldl idsInsert l).Sorted (· ≤ ·) := by
  induction vs with
  | nil => intro l hl; simpa using hl
  | cons v vs ih =>
    intro l hl
    rw [List.foldl_cons]
    refine ih _ ?_
    rw [idsInsert_eq_ubInsert _ _ hl]
    exact ubInsert_sorted_le v l hl

/-- Claim C9: for every sequence of insert calls with positive values on an
empty or ascending-sorted vector, the contents remain in ascending order;
and insert on an empty vector produces the one-element vector. -/
theorem ids_insert_preserves_ascending (vs : List trx_id_t) (l : List trx_id_t)
    (hl : l.Sorted (· ≤ ·)) (_hpos : ∀ v ∈ vs, 0 < v) :
    (vs.foldl idsInsert l).Sorted (· ≤ ·) ∧ ∀ x : trx_id_t, idsInsert [] x = [x] :=
  ⟨foldl_idsInsert_sorted vs l hl, fun x => by simp [idsInsert]⟩

/-- On a strictly sorted list containing c, the two runs around the
std::lower_bound slot of c are exactly the list with c removed. -/
theorem take_drop_tail_eq_erase (l : List trx_id_t) (c : trx_id_t)
    (hs : l.Sorted (· < ·)) (hc : c ∈ l) :
    l.takeWhile (fun x => decide (x < c)) ++ (l.dropWhile (fun x => decide (x < c))).tail
      = l.erase c := by
  induction l with
  | nil => cases hc
  | cons b t ih =>
    rw [List.sorted_cons] at hs
    by_cases hb : b < c
    · have hbc : b ≠ c := ne_of_lt hb
      have hct : c ∈ t := by
        rcases List.mem_cons.mp hc with rfl | h
        · exact absurd hb (lt_irrefl _)
        · exact h
      rw [List.takeWhile_cons, List.dropWhile_cons,
        if_pos (decide_eq_true hb), if_pos (decide_eq_true hb),
        List.cons_append,
        List.erase_cons, if_neg (by simp [hbc]), ih hs.2 hct]
    · have hcb : c = b := by
        rcases List.mem_cons.mp hc with rfl | hct
        · rfl
        · exact absurd (hs.1 c hct) hb
      have hdb : ¬ (decide (b < c) = true) := by simp [hb]
      rw [List.takeWhile_cons, List.dropWhile_cons,
        if_neg hdb, if_neg hdb, List.nil_append, List.tail_cons,
        List.erase_cons, if_pos (by simp [hcb.symm])]

/-- copy_trx_ids leaves m_low_limit_no unchanged. -/
theorem copy_trx_ids_low_no (v : ReadView) (l : List trx_id_t) :
    (v.copy_trx_ids l).m_low_limit_no = v.m_low_limit_no := by
  simp only [ReadView.copy_trx_ids]
  split <;> split <;> rfl

/-- copy_trx_ids leaves m_low_limit_id unchanged. -/
theorem copy_trx_ids_low_id (v : ReadView) (l : List trx_id_t) :
    (v.copy_trx_ids l).m_low_limit_id = v.m_low_limit_id := by
  simp only [ReadView.copy_trx_ids]
  split <;> split <;> rfl

/-- copy_trx_ids leaves m_creator_trx_id unchanged. -/
theorem copy_trx_ids_creator (v : ReadView) (l : List trx_id_t) :
    (v.copy_trx_ids l).m_creator_trx_id = v.m_creator_trx_id := by
  simp only [ReadView.copy_trx_ids]
  split <;> split <;> rfl

/-- Characterization of copy_trx_ids on a strictly sorted source containing
the creator id when positive: the copy is the source with the creator
removed, and m_up_limit_id becomes the front of the copy when the copy is
non-empty (and is untouched otherwise). -/
theorem copy_trx_ids_spec (v : ReadView) (l : List trx_id_t)
    (hs : l.Sorted (· < ·))
    (hmem : 0 < v.m_creator_trx_id → v.m_creator_trx_id ∈ l) :
    (v.copy_trx_ids l).m_ids =
      (if 0 < v.m_creator_trx_id then l.erase v.m_creator_trx_id else l) ∧
    (v.copy_trx_ids l).m_up_limit_id =
      (if (if 0 < v.m_creator_trx_id then l.erase v.m_creator_trx_id else l) = []
       then v.m_up_limit_id
       else (if 0 < v.m_creator_trx_id then l.erase v.m_creator_trx_id else l).headD 0) := by
  by_cases hc : 0 < v.m_creator_trx_id
  · have hcl := hmem hc
    simp only [ReadView.copy_trx_ids]
    rw [if_pos hc, if_pos hc, if_pos hc]
    rcases l with - | ⟨b, t⟩
    · cases hcl
    rcases t with - | ⟨d, u⟩
    · have hb : v.m_creator_trx_id = b := by simpa using hcl
      rw [hb, List.erase_cons_head, if_pos (by simp)]
      exact ⟨rfl, by rw [if_pos rfl]⟩
    · have hcond : ¬ ((b :: d :: u).length - 1 = 0) := by simp
      rw [if_neg hcond]
      have herase := take_drop_tail_eq_erase (b :: d :: u) v.m_creator_trx_id hs hcl
      have hee : (b :: d :: u).erase v.m_creator_trx_id ≠ [] := by
        have hle := List.length_erase_of_mem hcl
        intro hnil
        rw [hnil] at hle
        simp at hle
      refine ⟨herase, ?_⟩
      rw [if_neg hee]
      show (List.takeWhile (fun x => decide (x < v.m_creator_trx_id)) (b :: d :: u) ++
        (List.dropWhile (fun x => decide (x < v.m_creator_trx_id)) (b :: d :: u)).tail).headD 0
        = ((b :: d :: u).erase v.m_creator_trx_id).headD 0
      rw [herase]
  · simp only [ReadView.copy_trx_ids]
    rw [if_neg hc, if_neg hc, if_neg hc]
    rcases l with - | ⟨b, t⟩
    · rw [if_pos (show ([] : List trx_id_t).length = 0 from rfl)]
      exact ⟨rfl, by rw [if_pos rfl]⟩
    · have hcond : ¬ ((b :: t).length = 0) := by simp
      rw [if_neg hcond, if_neg (List.cons_ne_nil b t)]
      exact ⟨rfl, rfl⟩

/-- The serialisation-list step of prepare leaves m_ids, m_up_limit_id,
m_low_limit_id and m_creator_trx_id unchanged. -/
theorem serstep_fields (w : ReadView) (n : Nat) :
    (if n < w.m_low_limit_no then { w with m_low_limit_no := n } else w).m_ids = w.m_ids ∧
    (if n < w.m_low_limit_no then { w with m_low_limit_no := n } else w).m_up_limit_id
      = w.m_up_limit_id ∧
    (if n < w.m_low_limit_no then { w with m_low_limit_no := n } else w).m_low_limit_id
      = w.m_low_limit_id ∧
    (if n < w.m_low_limit_no then { w with m_low_limit_no := n } else w).m_creator_trx_id
      = w.m_creator_trx_id := by
  by_cases hlt : n < w.m_low_limit_no <;> simp [hlt]

/-- prepare records the creator id. -/
theorem prepare_creator (sys : TrxSys) (v : ReadView) (id : trx_id_t) :
    (ReadView.prepare sys v id).m_creator_trx_id = id := by
  obtain ⟨maxid, rwids, ser⟩ := sys
  simp only [ReadView.prepare]
  rcases ser with - | ⟨no, rest⟩ <;>
    by_cases hrw : rwids.isEmpty <;>
      simp [hrw, copy_trx_ids_creator, apply_ite ReadView.m_creator_trx_id]

/-- prepare sets m_low_limit_id to the max transaction id. -/
theorem prepare_low_id (sys : TrxSys) (v : ReadView) (id : trx_id_t) :
    (ReadView.prepare sys v id).m_low_limit_id = sys.max_trx_id := by
  obtain ⟨maxid, rwids, ser⟩ := sys
  simp only [ReadView.prepare]
  rcases ser with - | ⟨no, rest⟩ <;>
    by_cases hrw : rwids.isEmpty <;>
      simp [hrw, copy_trx_ids_low_id, apply_ite ReadView.m_low_limit_id]

/-- prepare initializes m_low_limit_no to the max transaction id and then
lowers it to the serialisation-list head when that is smaller. -/
theorem prepare_low_no (sys : TrxSys) (v : ReadView) (id : trx_id_t) :
    (ReadView.prepare sys v id).m_low_limit_no =
      (match sys.serialisation_list with
       | [] => sys.max_trx_id
       | no :: _ => min no sys.max_trx_id) := by
  obtain ⟨maxid, rwids, ser⟩ := sys
  simp only [ReadView.prepare]
  rcases ser with - | ⟨no, rest⟩
  · by_cases hrw : rwids.isEmpty <;> simp [hrw, copy_trx_ids_low_no]
  · by_cases hrw : rwids.isEmpty <;>
      · simp only [hrw, copy_trx_ids_low_no, apply_ite ReadView.m_low_limit_no]
        simp [hrw, copy_trx_ids_low_no]
        split <;> omega

/-- Characterization of the copy-or-clear step of prepare: m_ids becomes
the read-write ids with the creator removed (when positive), and
m_up_limit_id is the front of the result when non-empty and stays at the
max transaction id otherwise. -/
theorem prepare_v2_spec (v : ReadView) (maxid : Nat) (rwids : List trx_id_t)
    (id : trx_id_t) (w : ReadView)
    (hw : w = if ¬ rwids.isEmpty then
            ReadView.copy_trx_ids
              { v with
                m_creator_trx_id := id,
                m_low_limit_no := maxid,
                m_low_limit_id := maxid,
                m_up_limit_id := maxid } rwids
          else
            { ({ v with
                 m_creator_trx_id := id,
                 m_low_limit_no := maxid,
                 m_low_limit_id := maxid,
                 m_up_limit_id := maxid } : ReadView) with
              m_ids := ([] : List trx_id_t) })
    (hsorted : rwids.Sorted (· < ·)) (hmem : 0 < id → id ∈ rwids) :
    w.m_ids = (if 0 < id then rwids.erase id else rwids) ∧
    (w.m_ids ≠ [] → w.m_up_limit_id = w.m_ids.headD 0) ∧
    (w.m_ids = [] → w.m_up_limit_id = maxid) := by
  subst hw
  by_cases hrw : rwids.isEmpty
  · rw [List.isEmpty_iff] at hrw
    subst hrw
    rw [if_neg (by simp)]
    refine ⟨by simp, fun h => absurd rfl h, fun _ => rfl⟩
  · rw [if_pos hrw]
    have hids := (copy_trx_ids_spec
      { v with
        m_creator_trx_id := id,
        m_low_limit_no := maxid,
        m_low_limit_id := maxid,
        m_up_limit_id := maxid } rwids hsorted hmem).1
    have hup := (copy_trx_ids_spec
      { v with
        m_creator_trx_id := id,
        m_low_limit_no := maxid,
        m_low_limit_id := maxid,
        m_up_limit_id := maxid } rwids hsorted hmem).2
    refine ⟨hids, fun h => ?_, fun h => ?_⟩
    · rw [hup, ← hids, if_neg h]
    · rw [hup, ← hids, if_pos h]

/-- prepare computes m_ids as the read-write ids with the creator removed
and m_up_limit_id as its front when non-empty (the max transaction id
otherwise). -/
theorem prepare_ids_up (sys : TrxSys) (v : ReadView) (id : trx_id_t)
    (hsorted : sys.rw_trx_ids.Sorted (· < ·))
    (hmem : 0 < id → id ∈ sys.rw_trx_ids) :
    (ReadView.prepare sys v id).m_ids =
      (if 0 < id then sys.rw_trx_ids.erase id else sys.rw_trx_ids) ∧
    ((ReadView.prepare sys v id).m_ids ≠ [] →
      (ReadView.prepare sys v id).m_up_limit_id =
        (ReadView.prepare sys v id).m_ids.headD 0) ∧
    ((ReadView.prepare sys v id).m_ids = [] →
      (ReadView.prepare sys v id).m_up_limit_id = sys.max_trx_id) := by
  obtain ⟨maxid, rwids, ser⟩ := sys
  simp only [ReadView.prepare]
  rcases ser with - | ⟨no, rest⟩
  · exact prepare_v2_spec v maxid rwids id _ rfl hsorted hmem
  · rw [(serstep_fields _ _).1, (serstep_fields _ _).2.1]
    exact prepare_v2_spec v maxid rwids id _ rfl hsorted hmem

/-- Claim C5: for ReadView::prepare(id) with the read-write ids ascending
and containing id exactly once when positive: the creator id is recorded;
m_low_limit_id is the max transaction id; m_ids is the read-write ids with
the creator removed; m_up_limit_id is m_ids front when m_ids is non-empty
and stays at the max transaction id otherwise; and m_low_limit_no is the
max transaction id, lowered to the serialisation-list head when smaller. -/
theorem readview_prepare_spec (sys : TrxSys) (v : ReadView) (id : trx_id_t)
    (hsorted : sys.rw_trx_ids.Sorted (· < ·))
    (hmem : 0 < id → id ∈ sys.rw_trx_ids) :
    (ReadView.prepare sys v id).m_creator_trx_id = id ∧
    (ReadView.prepare sys v id).m_low_limit_id = sys.max_trx_id ∧
    (ReadView.prepare sys v id).m_ids =
      (if 0 < id then sys.rw_trx_ids.erase id else sys.rw_trx_ids) ∧
    ((ReadView.prepare sys v id).m_ids ≠ [] →
      (ReadView.prepare sys v id).m_up_limit_id =
        (ReadView.prepare sys v id).m_ids.headD 0) ∧
    ((ReadView.prepare sys v id).m_ids = [] →
      (ReadView.prepare sys v id).m_up_limit_id = sys.max_trx_id) ∧
    (ReadView.prepare sys v id).m_low_limit_no =
      (match sys.serialisation_list with
       | [] => sys.max_trx_id
       | no :: _ => min no sys.max_trx_id) :=
  ⟨prepare_creator sys v id, prepare_low_id sys v id,
    (prepare_ids_up sys v id hsorted hmem).1,
    (prepare_ids_up sys v id hsorted hmem).2.1,
    (prepare_ids_up sys v id hsorted hmem).2.2,
    prepare_low_no sys v id⟩

/-- Witness for readview_prepare_spec at the concrete scenario of the spec:
prepare(5) with rw_xids [3, 5, 8] yields ids [3, 8] and up_limit_id 3. -/
theorem readview_prepare_spec_witness :
    (([3, 5, 8] : List trx_id_t).Sorted (· < ·) ∧ (0 < 5 → 5 ∈ [3, 5, 8])) ∧
    (ReadView.prepare ⟨42, [3, 5, 8], []⟩ ⟨0, 0, 0, [], 0, false⟩ 5).m_ids = [3, 8] ∧
    (ReadView.prepare ⟨42, [3, 5, 8], []⟩ ⟨0, 0, 0, [], 0, false⟩ 5).m_up_limit_id = 3 :=
  ⟨⟨by decide, by decide⟩, by
    have h := readview_prepare_spec ⟨42, [3, 5, 8], []⟩ ⟨0, 0, 0, [], 0, false⟩ 5
      (by decide) (by decide)
    have hne : (ReadView.prepare ⟨42, [3, 5, 8], []⟩ ⟨0, 0, 0, [], 0, false⟩ 5).m_ids ≠ [] := by
      rw [h.2.2.1]
      decide
    refine ⟨?_, ?_⟩
    · rw [h.2.2.1]
      decide
    · rw [h.2.2.2.1 hne, h.2.2.1]
      decide⟩

/-- Characterization of copy_complete on a view whose ids are strictly
ascending and do not contain its creator id: the creator id is inserted in
order when positive and then zeroed, the ids stay strictly ascending, and
m_up_limit_id drops to the minimum of the new front and the old value when
the ids are non-empty. -/
theorem copy_complete_spec (A : ReadView)
    (hsort : A.m_ids.Sorted (· < ·)) (hnotin : A.m_creator_trx_id ∉ A.m_ids) :
    (A.copy_complete).m_creator_trx_id = 0 ∧
    (A.copy_complete).m_ids.Sorted (· < ·) ∧
    (∀ y, y ∈ (A.copy_complete).m_ids ↔
      (y ∈ A.m_ids ∨ (0 < A.m_creator_trx_id ∧ y = A.m_creator_trx_id))) ∧
    ((A.copy_complete).m_ids ≠ [] →
      (A.copy_complete).m_up_limit_id =
        min ((A.copy_complete).m_ids.headD 0) A.m_up_limit_id) := by
  by_cases hc : 0 < A.m_creator_trx_id
  · have hle : A.m_ids.Sorted (· ≤ ·) := hsort.imp (fun h => le_of_lt h)
    have hins : idsInsert A.m_ids A.m_creator_trx_id = ubInsert A.m_creator_trx_id A.m_ids :=
      idsInsert_eq_ubInsert _ _ hle
    have hnil : idsInsert A.m_ids A.m_creator_trx_id ≠ [] := by
      rw [hins]
      exact ubInsert_ne_nil _ _
    simp only [ReadView.copy_complete, if_pos hc]
    rw [if_pos (show ¬ (idsInsert A.m_ids A.m_creator_trx_id).isEmpty = true by
      simpa [List.isEmpty_iff] using hnil)]
    refine ⟨by trivial, ?_, ?_, fun _ => by trivial⟩
    · show (idsInsert A.m_ids A.m_creator_trx_id).Sorted (· < ·)
      rw [hins]
      exact ubInsert_sorted_lt _ _ hsort hnotin
    · intro y
      show y ∈ idsInsert A.m_ids A.m_creator_trx_id ↔ _
      rw [hins, ubInsert_mem]
      constructor
      · rintro (rfl | hy)
        · exact Or.inr ⟨hc, rfl⟩
        · exact Or.inl hy
      · rintro (hy | ⟨-, rfl⟩)
        · exact Or.inr hy
        · exact Or.inl rfl
  · simp only [ReadView.copy_complete, if_neg hc]
    by_cases hemp : A.m_ids.isEmpty = true
    · rw [if_neg (by simp [hemp])]
      rw [List.isEmpty_iff] at hemp
      refine ⟨by trivial, hsort, ?_, ?_⟩
      · intro y
        constructor
        · exact Or.inl
        · rintro (hy | ⟨hc2, -⟩)
          · exact hy
          · exact absurd hc2 hc
      · intro h
        exact absurd hemp h
    · rw [if_pos hemp]
      refine ⟨by trivial, hsort, ?_, fun _ => by trivial⟩
      intro y
      constructor
      · exact Or.inl
      · rintro (hy | ⟨hc2, -⟩)
        · exact hy
        · exact absurd hc2 hc

/-- Claim C4: clone_oldest_view copies the first open view found scanning
m_views from tail toward head and completes the copy, so that the clone has
creator id 0, its ids are the copied view ids plus the copied creator id
when positive (strictly ascending, no duplicates), and its up-limit is the
minimum of the new ids front and the copied up-limit when the ids are
non-empty; when no open view exists the destination is prepared with
creator id 0. The hypothesis is the registered-view invariant of the spec
(ids strictly ascending, creator excluded). -/
theorem clone_oldest_view_spec (sys : TrxSys) (views : List ReadView)
    (dst : ReadView)
    (hinv : ∀ w ∈ views, w.m_ids.Sorted (· < ·) ∧ w.m_creator_trx_id ∉ w.m_ids) :
    (∀ V, views.reverse.find? (fun w => w.m_open) = some V →
      ((MVCC.clone_oldest_view sys views dst).m_creator_trx_id = 0 ∧
       (MVCC.clone_oldest_view sys views dst).m_ids.Sorted (· < ·) ∧
       (∀ y, y ∈ (MVCC.clone_oldest_view sys views dst).m_ids ↔
         (y ∈ V.m_ids ∨ (0 < V.m_creator_trx_id ∧ y = V.m_creator_trx_id))) ∧
       ((MVCC.clone_oldest_view sys views dst).m_ids ≠ [] →
         (MVCC.clone_oldest_view sys views dst).m_up_limit_id =
           min ((MVCC.clone_oldest_view sys views dst).m_ids.headD 0)
             V.m_up_limit_id))) ∧
    (views.reverse.find? (fun w => w.m_open) = none →
      MVCC.clone_oldest_view sys views dst = dst.prepare sys 0) := by
  constructor
  · intro V hV
    have hVmem : V ∈ views := List.mem_reverse.mp (List.mem_of_find?_eq_some hV)
    obtain ⟨hsort, hnotin⟩ := hinv V hVmem
    have hclone : MVCC.clone_oldest_view sys views dst =
        (dst.copy_prepare V).copy_complete := by
      simp only [MVCC.clone_oldest_view, hV]
    have hA : (dst.copy_prepare V).m_ids = V.m_ids ∧
        (dst.copy_prepare V).m_creator_trx_id = V.m_creator_trx_id ∧
        (dst.copy_prepare V).m_up_limit_id = V.m_up_limit_id := ⟨rfl, rfl, rfl⟩
    obtain ⟨h1, h2, h3, h4⟩ := copy_complete_spec (dst.copy_prepare V)
      (by rw [hA.1]; exact hsort) (by rw [hA.1, hA.2.1]; exact hnotin)
    rw [hA.1, hA.2.1] at h3
    rw [hA.2.2] at h4
    rw [hclone]
    exact ⟨h1, h2, h3, h4⟩
  · intro h
    simp only [MVCC.clone_oldest_view, h]

/-- A concrete trx_sys snapshot for the clone witness. -/
def sysW : TrxSys := ⟨100, [], []⟩

/-- A concrete open registered view with ids [3, 8] and creator 5. -/
def vOpen : ReadView := ⟨100, 3, 5, [3, 8], 100, true⟩

/-- A concrete destination view owned by the purge thread. -/
def dstW : ReadView := ⟨0, 0, 0, [], 0, false⟩

/-- Witness for clone_oldest_view_spec: cloning from the registry holding
the single open view vOpen yields a clone with creator 0 and strictly
ascending ids. -/
theorem clone_oldest_view_spec_witness :
    (∀ w ∈ [vOpen], w.m_ids.Sorted (· < ·) ∧ w.m_creator_trx_id ∉ w.m_ids) ∧
    (MVCC.clone_oldest_view sysW [vOpen] dstW).m_creator_trx_id = 0 ∧
    (MVCC.clone_oldest_view sysW [vOpen] dstW).m_ids.Sorted (· < ·) :=
  ⟨by decide,
    ((clone_oldest_view_spec sysW [vOpen] dstW (by decide)).1 vOpen (by decide)).1,
    ((clone_oldest_view_spec sysW [vOpen] dstW (by decide)).1 vOpen (by decide)).2.1⟩

/-- Witness for ids_insert_preserves_ascending: inserting 3, 1, 2, 2 into
the empty vector keeps it ascending. -/
theorem ids_insert_preserves_ascending_witness :
    (([] : List trx_id_t).Sorted (· ≤ ·) ∧ ∀ v ∈ [3, 1, 2, 2], 0 < v) ∧
    (([3, 1, 2, 2].foldl idsInsert ([] : List trx_id_t)).Sorted (· ≤ ·) ∧
      ∀ x : trx_id_t, idsInsert [] x = [x]) :=
  ⟨⟨by decide, by decide⟩,
    ids_insert_preserves_ascending [3, 1, 2, 2] [] (by decide) (by decide)⟩

end InnoDB
